import Mathlib

/- Shallow embedding of the glass-cli command-palette core: the bridge-client
pending-request protocol (src/lib/api.js), the command registry and dispatcher
(the CommandRegistry source file), the background-script runner and its
response parsing (src/lib/background-script.js), the table-name resolution
layer (src/commands/list.js), and the page-context bridge's session-token
discovery (api-bridge.js). -/

namespace GlassCli

/-! ### JavaScript string primitives used throughout the sources -/

/-- Character-level emptiness test (kept list-based so concrete instances
reduce definitionally). -/
def strIsEmpty (s : String) : Bool := s.toList.isEmpty

/-- Character-wise lowercasing, modelling JS `String.prototype.toLowerCase`
on the ASCII identifiers this program manipulates. -/
def jsToLower (s : String) : String := String.mk (s.toList.map Char.toLower)

def splitOnCharAux (sep : Char) (acc : List Char) : List Char → List (List Char)
  | [] => [acc.reverse]
  | c :: cs =>
    if c == sep then acc.reverse :: splitOnCharAux sep [] cs
    else splitOnCharAux sep (c :: acc) cs

/-- JS `String.prototype.split` with a one-character separator (the only
form these sources use: '\n', ';', '='). `"".split(sep)` is `[""]`. -/
def splitOnChar (sep : Char) (s : String) : List String :=
  (splitOnCharAux sep [] s.toList).map String.mk

/-- List-level prefix test. -/
def isPrefixOfL : List Char → List Char → Bool
  | [], _ => true
  | _ :: _, [] => false
  | a :: as, b :: bs => a == b && isPrefixOfL as bs

/-- JS `String.prototype.startsWith`. -/
def strStartsWith (s p : String) : Bool := isPrefixOfL p.toList s.toList

def containsSubL (needle : List Char) : List Char → Bool
  | [] => isPrefixOfL needle []
  | c :: cs => isPrefixOfL needle (c :: cs) || containsSubL needle cs

/-- JS `String.prototype.includes`: substring containment. -/
def strIncludes (s sub : String) : Bool := containsSubL sub.toList s.toList

def jsWs (c : Char) : Bool := c.isWhitespace

def trimCharsL (cs : List Char) : List Char :=
  ((cs.dropWhile jsWs).reverse.dropWhile jsWs).reverse

/-- JS `String.prototype.trim`. -/
def jsTrim (s : String) : String := String.mk (trimCharsL s.toList)

def splitRunsAux (acc : List Char) : List Char → List (List Char)
  | [] => if acc.isEmpty then [] else [acc.reverse]
  | c :: cs =>
    if jsWs c then
      if acc.isEmpty then splitRunsAux [] cs
      else acc.reverse :: splitRunsAux [] cs
    else splitRunsAux (c :: acc) cs

/-- `commandLine.trim().split(/\s+/)`: in JS, splitting the empty string
yields `[""]`; a trimmed non-empty string splits into its whitespace-run
separated tokens. -/
def splitWs (s : String) : List String :=
  let t := jsTrim s
  if strIsEmpty t then [""]
  else (splitRunsAux [] t.toList).map String.mk

/-- JS truthiness of an optional string field (`undefined` and `""` are
falsy). -/
def truthyOS : Option String → Bool
  | none => false
  | some s => !strIsEmpty s

/-! ### Bridge client pending-request protocol (src/lib/api.js) -/

/-- An incoming window message as destructured by `_handleMessage`
(`const { type, messageId } = event.data`), plus an opaque payload tag so
distinct responses are distinguishable. `none` models an absent field. -/
structure BridgeMsg where
  type : Option String
  messageId : Option String
  payload : Nat
deriving DecidableEq

/-- The Pending Request Table: insertion-ordered map from correlation id to
the caller's handler, tagged here by a Nat identifying the promise. -/
abbrev Pending := List (String × Nat)

def lookupP : Pending → String → Option Nat
  | [], _ => none
  | (k, v) :: t, key => if k == key then some v else lookupP t key

/-- `Map.prototype.delete`: remove the entry for the key. -/
def eraseP (p : Pending) (key : String) : Pending :=
  p.filter (fun e => e.1 != key)

/-- `ServiceNowAPI._handleMessage`: skip messages with a falsy `messageId` or
one not in the table; skip messages whose `type` does not contain
"Response" (the broadcast echo of an outgoing request); otherwise delete the
entry, clear its timeout and resolve the caller with the whole message. -/
def handleMessage (p : Pending) (m : BridgeMsg) :
    Pending × Option (String × Nat × BridgeMsg) :=
  match m.messageId with
  | none => (p, none)
  | some mid =>
    if strIsEmpty mid then (p, none)
    else
      match lookupP p mid with
      | none => (p, none)
      | some h =>
        match m.type with
        | none => (p, none)
        | some ty =>
          if strIncludes ty "Response" then (eraseP p mid, some (mid, h, m))
          else (p, none)

/-- How a settled request promise was settled. -/
inductive Outcome where
  | resolved (m : BridgeMsg)
  | rejectedTimeout
deriving DecidableEq

/-- The asynchronous continuations that touch the Pending Request Table for
in-flight requests: a window message arriving, and a request's `setTimeout`
callback firing. A cleared timeout never fires in JS, and the timeout is
cleared exactly when the entry is deleted, so firing on an absent id is
modelled as the no-op it is. -/
inductive Event where
  | arrive (m : BridgeMsg)
  | timeoutFire (mid : String)

def stepEv (p : Pending) : Event → Pending × Option (String × Nat × Outcome)
  | .arrive m =>
    match handleMessage p m with
    | (p', some (mid, h, msg)) => (p', some (mid, h, .resolved msg))
    | (p', none) => (p', none)
  | .timeoutFire mid =>
    match lookupP p mid with
    | some h => (eraseP p mid, some (mid, h, .rejectedTimeout))
    | none => (p, none)

/-- Run a sequence of events, collecting settlements in order. -/
def runEvents (p : Pending) : List Event → Pending × List (String × Nat × Outcome)
  | [] => (p, [])
  | e :: es =>
    let r := stepEv p e
    let rest := runEvents r.1 es
    (rest.1, r.2.toList ++ rest.2)

/-! ### Command registry and dispatcher (CommandRegistry) -/

/-- JS primitive values a `validate` function may return. -/
inductive JSVal where
  | vtrue
  | vfalse
  | vnull
  | vundefined
  | vstr (s : String)
deriving DecidableEq

def truthyV : JSVal → Bool
  | .vtrue => true
  | .vstr s => !strIsEmpty s
  | _ => false

/-- `String(v)`, as `new Error(v)` stringifies a truthy argument. -/
def jsValToString : JSVal → String
  | .vtrue => "true"
  | .vfalse => "false"
  | .vnull => "null"
  | .vundefined => "undefined"
  | .vstr s => s

/-- Template interpolation of a possibly-absent string field. -/
def jsDisplay : Option String → String
  | none => "undefined"
  | some s => s

/-- A command descriptor as the registry sees it: a duck-typed object whose
`name`, `aliases` and `validate` may be absent and whose `execute` may be
absent (tracked by `hasExecute`; its body is irrelevant to the registry). -/
structure Command where
  name : Option String
  aliases : Option (List String)
  hasExecute : Bool
  validate : Option (List String → JSVal)

/-- `Map.prototype.set`: update in place if the key exists, else append. -/
def mapSet {α : Type} : List (String × α) → String → α → List (String × α)
  | [], k, v => [(k, v)]
  | (k', v') :: t, k, v =>
    if k' == k then (k, v) :: t else (k', v') :: mapSet t k v

/-- `Map.prototype.get`. -/
def mapGet {α : Type} : List (String × α) → String → Option α
  | [], _ => none
  | (k', v') :: t, k => if k' == k then some v' else mapGet t k

/-- The registry's two mappings: lowercased name to descriptor, and
lowercased alias to lowercased canonical name. -/
structure Registry where
  commands : List (String × Command)
  aliases : List (String × String)

def regEmpty : Registry := ⟨[], []⟩

def lowName (c : Command) : String := jsToLower (c.name.getD "")

/-- `CommandRegistry.register`, with the thrown error returned as data. The
throw happens before any mutation, so the error case carries the registry
exactly as it was. -/
def register (r : Registry) (c : Command) : Registry × Option String :=
  if !truthyOS c.name || !c.hasExecute then
    (r, some "Command must have a name and execute function")
  else
    ({ commands := mapSet r.commands (lowName c) c
       aliases := (c.aliases.getD []).foldl
         (fun m a => mapSet m (jsToLower a) (lowName c)) r.aliases }, none)

/-- Register a list of descriptors in order (how command modules populate
the singleton registry at startup). -/
def registerList (r : Registry) : List Command → Registry
  | [] => r
  | c :: cs => registerList (register r c).1 cs

/-- `CommandRegistry.get`: lowercase the token, check the command map, then
the alias map. -/
def rget (r : Registry) (token : String) : Option Command :=
  let n := jsToLower token
  match mapGet r.commands n with
  | some c => some c
  | none =>
    match mapGet r.aliases n with
    | some realName => mapGet r.commands realName
    | none => none

/-- The observable outcome of one dispatch: a thrown error (with its exact
message) or the invocation of a descriptor's `execute` with the parsed
arguments. -/
inductive DispatchResult where
  | threw (msg : String)
  | invoked (c : Command) (args : List String)

/-- `CommandRegistry.execute` (the dispatcher): whitespace-split the line,
resolve the first token, run `validate` when present (a non-`true` return
throws `Error(validationResult || fallback)`), else invoke `execute`. -/
def dispatch (r : Registry) (line : String) : DispatchResult :=
  let parts := splitWs line
  let commandName := parts.headD ""
  let args := parts.tail
  match rget r commandName with
  | none =>
    .threw ("Unknown command: " ++ commandName ++
      ". Type 'help' for available commands.")
  | some c =>
    match c.validate with
    | some f =>
      let v := f args
      if v = JSVal.vtrue then .invoked c args
      else
        .threw (if truthyV v then jsValToString v
          else "Invalid arguments for " ++ jsDisplay c.name)
    | none => .invoked c args

/-! ### Table-name resolution (src/commands/list.js) -/

/-- One cached table definition: display name and technical table name. -/
structure TableDef where
  name : String
  table : String
deriving DecidableEq

def startsMatch (d : TableDef) (lowerInput : String) : Bool :=
  strStartsWith (jsToLower d.name) lowerInput ||
    strStartsWith (jsToLower d.table) lowerInput

def inclMatch (d : TableDef) (lowerInput : String) : Bool :=
  strIncludes (jsToLower d.name) lowerInput ||
    strIncludes (jsToLower d.table) lowerInput

def insertByLen (d : TableDef) : List TableDef → List TableDef
  | [] => [d]
  | e :: t =>
    if d.table.length < e.table.length then d :: e :: t else e :: insertByLen d t

/-- Stable sort by technical-name length: the unique stable result of
`.sort((a, b) => a.table.length - b.table.length)` (JS sort is stable). -/
def sortByLen : List TableDef → List TableDef
  | [] => []
  | d :: t => insertByLen d (sortByLen t)

/-- `findMatchingTables`: starts-with matches first, then plain substring
matches, each group sorted by technical-name length, capped at 10. -/
def findMatchingTables (tables : List TableDef) (input : String) : List TableDef :=
  if strIsEmpty input then []
  else
    let lowerInput := jsToLower input
    let s := sortByLen (tables.filter (fun d => startsMatch d lowerInput))
    let i := sortByLen (tables.filter
      (fun d => !startsMatch d lowerInput && inclMatch d lowerInput))
    (s ++ i).take 10

/-- `resolveTableName`: exact technical-name match, then exact display-name
match (both case-insensitive), else the lowercased input. -/
def resolveTableName (tables : List TableDef) (input : String) : String :=
  let lowerInput := jsToLower input
  match tables.find? (fun d => jsToLower d.table == lowerInput) with
  | some d => d.table
  | none =>
    match tables.find? (fun d => jsToLower d.name == lowerInput) with
    | some d => d.table
    | none => jsToLower input

/-! ### Session-token discovery and script requests (api-bridge.js) -/

def dropWsL (cs : List Char) : List Char := cs.dropWhile jsWs

def isQuote (c : Char) : Bool := c == '\'' || c == '"'

/-- Try the regex /g_ck\s*=\s*['\x22]([^'\x22]+)['\x22]/ anchored at this
position; returns the capture group. -/
def gckAt (cs : List Char) : Option String :=
  if isPrefixOfL "g_ck".toList cs then
    match dropWsL (cs.drop 4) with
    | '=' :: r2 =>
      match dropWsL r2 with
      | q :: r3 =>
        if isQuote q then
          let tok := r3.takeWhile (fun c => !isQuote c)
          match r3.drop tok.length with
          | q2 :: _ => if isQuote q2 && !tok.isEmpty then some (String.mk tok) else none
          | [] => none
        else none
      | [] => none
    | _ => none
  else none

def scanGck : List Char → Option String
  | [] => gckAt []
  | c :: cs =>
    match gckAt (c :: cs) with
    | some t => some t
    | none => scanGck cs

/-- `content.match(/g_ck\s*=\s*['\x22]([^'\x22]+)['\x22]/)`, capture 1. -/
def matchGckAssign (content : String) : Option String := scanGck content.toList

/-- The cookie loop of `getSessionToken`: split `document.cookie` on ';',
trim, split each on '='; the first cookie named glide_user_session or
JSESSIONID returns its `cookie[1]` (`some none` models `cookie[1]` being
undefined for a bare cookie with no '='). -/
def cookieLookup (cookie : String) : Option (Option String) :=
  (splitOnChar ';' cookie).findSome? (fun ck =>
    match splitOnChar '=' (jsTrim ck) with
    | [] => none
    | nm :: rest =>
      if nm == "glide_user_session" || nm == "JSESSIONID" then some rest.head?
      else none)

/-- The page state `getSessionToken` inspects: the page-global `g_ck`, the
text content of the page's script elements, and `document.cookie`. -/
structure PageEnv where
  gck : Option String
  scripts : List String
  cookie : String

/-- `getSessionToken` from api-bridge.js: page global, then inline script
contents, then session cookies; `null` (none) when nothing is found. -/
def getSessionToken (env : PageEnv) : Option String :=
  if truthyOS env.gck then env.gck
  else
    match env.scripts.findSome? matchGckAssign with
    | some t => some t
    | none =>
      match cookieLookup env.cookie with
      | some v => v
      | none => none

/-- JS `a || b` on strings ("" is falsy). -/
def jsOrS (a b : String) : String := if strIsEmpty a then b else a

/-- What `handleBackgroundScriptRequest` does with a request: either posts
the no-token error response back (and returns, no fetch), or issues the
POST to /sys.scripts.do with the discovered token. -/
inductive ScriptReqResult where
  | errorResponse (messageId error : String)
  | networkPost (messageId script scope gck : String)

/-- `handleBackgroundScriptRequest` up to the fetch/respond decision:
`var g_ck = window.g_ck || getSessionToken() || '';` and the fail-fast
no-token branch. -/
def handleBackgroundScriptRequest (env : PageEnv)
    (messageId script scope : String) : ScriptReqResult :=
  let gck := jsOrS (env.gck.getD "") (jsOrS ((getSessionToken env).getD "") "")
  if strIsEmpty gck then .errorResponse messageId "No authentication token available"
  else .networkPost messageId script scope gck

/-! ### Background-script response parsing (src/lib/background-script.js) -/

/-- JSON values; numbers are kept as their source lexeme. Models the result
of the `JSON.parse` builtin that `parseScriptLines` calls per line. -/
inductive Json where
  | jnull
  | jbool (b : Bool)
  | jnum (lexeme : String)
  | jstr (s : String)
  | jarr (elems : List Json)
  | jobj (fields : List (String × Json))

def lbraceC : Char := Char.ofNat 123

def rbraceC : Char := Char.ofNat 125

def isJsonWs (c : Char) : Bool := c == ' ' || c == '\t' || c == '\n' || c == '\r'

def skipJsonWs (cs : List Char) : List Char := cs.dropWhile isJsonWs

def hexVal (c : Char) : Option Nat :=
  if c.isDigit then some (c.toNat - 48)
  else if 97 ≤ c.toNat && c.toNat ≤ 102 then some (c.toNat - 87)
  else if 65 ≤ c.toNat && c.toNat ≤ 70 then some (c.toNat - 55)
  else none

/-- JSON string body after the opening quote, with the standard escapes. -/
def parseStringBody (acc : List Char) : List Char → Option (String × List Char)
  | [] => none
  | c :: cs =>
    if c == '"' then some (String.mk acc.reverse, cs)
    else if c == '\\' then
      match cs with
      | [] => none
      | e :: cs2 =>
        if e == '"' then parseStringBody ('"' :: acc) cs2
        else if e == '\\' then parseStringBody ('\\' :: acc) cs2
        else if e == '/' then parseStringBody ('/' :: acc) cs2
        else if e == 'b' then parseStringBody (Char.ofNat 8 :: acc) cs2
        else if e == 'f' then parseStringBody (Char.ofNat 12 :: acc) cs2
        else if e == 'n' then parseStringBody ('\n' :: acc) cs2
        else if e == 'r' then parseStringBody ('\r' :: acc) cs2
        else if e == 't' then parseStringBody ('\t' :: acc) cs2
        else if e == 'u' then
          match cs2 with
          | h1 :: h2 :: h3 :: h4 :: cs3 =>
            match hexVal h1, hexVal h2, hexVal h3, hexVal h4 with
            | some a, some b, some c4, some d =>
              parseStringBody
                (Char.ofNat (((a * 16 + b) * 16 + c4) * 16 + d) :: acc) cs3
            | _, _, _, _ => none
          | _ => none
        else none
    else if c.toNat < 32 then none
    else parseStringBody (c :: acc) cs

def digitsL (cs : List Char) : List Char × List Char :=
  (cs.takeWhile Char.isDigit, cs.dropWhile Char.isDigit)

def parseFracDigits (cs : List Char) : Option (List Char × List Char) :=
  match cs with
  | '.' :: t =>
    match digitsL t with
    | ([], _) => none
    | (ds, r) => some ('.' :: ds, r)
  | _ => some ([], cs)

def parseExpDigits (cs : List Char) : Option (List Char × List Char) :=
  match cs with
  | c :: t =>
    if c == 'e' || c == 'E' then
      let p := match t with
        | '+' :: u => ((['+'] : List Char), u)
        | '-' :: u => ((['-'] : List Char), u)
        | _ => (([] : List Char), t)
      match digitsL p.2 with
      | ([], _) => none
      | (ds, r) => some (c :: (p.1 ++ ds), r)
    else some ([], cs)
  | [] => some ([], [])

/-- JSON number grammar; returns the lexeme. -/
def parseNumber (cs : List Char) : Option (String × List Char) :=
  let p := match cs with
    | '-' :: t => ((['-'] : List Char), t)
    | _ => (([] : List Char), cs)
  match digitsL p.2 with
  | ([], _) => none
  | (ds, r2) =>
    if ds.length != 1 && ds.headD '0' == '0' then none
    else
      match parseFracDigits r2 with
      | none => none
      | some (fr, r3) =>
        match parseExpDigits r3 with
        | none => none
        | some (ex, r4) => some (String.mk (p.1 ++ ds ++ fr ++ ex), r4)

mutual

def parseValue : Nat → List Char → Option (Json × List Char)
  | 0, _ => none
  | fuel + 1, cs0 =>
    match skipJsonWs cs0 with
    | [] => none
    | 'n' :: 'u' :: 'l' :: 'l' :: t => some (.jnull, t)
    | 't' :: 'r' :: 'u' :: 'e' :: t => some (.jbool true, t)
    | 'f' :: 'a' :: 'l' :: 's' :: 'e' :: t => some (.jbool false, t)
    | '"' :: t =>
      match parseStringBody [] t with
      | some (s, r) => some (.jstr s, r)
      | none => none
    | '[' :: t => parseArrayItems fuel (skipJsonWs t) []
    | c :: t =>
      if c == lbraceC then parseObjectFields fuel (skipJsonWs t) []
      else
        match parseNumber (c :: t) with
        | some (lx, r) => some (.jnum lx, r)
        | none => none

def parseArrayItems : Nat → List Char → List Json → Option (Json × List Char)
  | 0, _, _ => none
  | fuel + 1, cs, acc =>
    match cs with
    | ']' :: t => if acc.isEmpty then some (.jarr [], t) else none
    | _ =>
      match parseValue fuel cs with
      | none => none
      | some (v, r) =>
        match skipJsonWs r with
        | ',' :: r2 => parseArrayItems fuel (skipJsonWs r2) (v :: acc)
        | ']' :: r2 => some (.jarr (v :: acc).reverse, r2)
        | _ => none

def parseObjectFields : Nat → List Char → List (String × Json) →
    Option (Json × List Char)
  | 0, _, _ => none
  | _ + 1, [], _ => none
  | fuel + 1, c :: t, acc =>
    if c == rbraceC then (if acc.isEmpty then some (.jobj [], t) else none)
    else
      match c :: t with
      | '"' :: t2 =>
        match parseStringBody [] t2 with
        | none => none
        | some (k, r1) =>
          match skipJsonWs r1 with
          | ':' :: r2 =>
            match parseValue fuel (skipJsonWs r2) with
            | none => none
            | some (v, r3) =>
              match skipJsonWs r3 with
              | ',' :: r4 => parseObjectFields fuel (skipJsonWs r4) ((k, v) :: acc)
              | c2 :: r4 =>
                if c2 == rbraceC then some (.jobj ((k, v) :: acc).reverse, r4)
                else none
              | [] => none
          | _ => none
      | _ => none

end

/-- `JSON.parse`: one JSON value spanning the whole string (trailing
whitespace allowed), else failure. -/
def jsonParse (s : String) : Option Json :=
  let cs := s.toList
  match parseValue (2 * cs.length + 2) cs with
  | some (v, rest) => if (skipJsonWs rest).isEmpty then some v else none
  | none => none

/-- One record produced by `parseScriptLines`: a parsed JSON value or a raw
text line kept verbatim. -/
inductive ScriptResult where
  | jsonRes (v : Json)
  | textRes (s : String)

/-- The diagnostic echo prefix stripped by `parseScriptLines`. -/
def echoMark : String := "*** Script: "

/-- `parseScriptLines`: split on newlines, drop blank lines, trim, strip the
echo prefix, skip marker lines, parse each line as JSON, keeping lines that
fail to parse as raw strings. -/
def parseScriptLines (text : String) : List ScriptResult :=
  let lines := (splitOnChar '\n' text).filter (fun l => !strIsEmpty (jsTrim l))
  lines.filterMap (fun line =>
    let c0 := jsTrim line
    let c1 := if strStartsWith c0 echoMark then String.mk (c0.toList.drop echoMark.toList.length) else c0
    if !strIsEmpty c1 && !strStartsWith c1 "###" then
      match jsonParse c1 with
      | some v => some (.jsonRes v)
      | none => if !strIsEmpty (jsTrim c1) then some (.textRes c1) else none
    else none)

/-- Recognize one /<BR\s*\/?>/i tag at the head; returns the remainder. -/
def brTail : List Char → Option (List Char)
  | '<' :: c1 :: c2 :: rest =>
    if (c1 == 'B' || c1 == 'b') && (c2 == 'R' || c2 == 'r') then
      let r1 := dropWsL rest
      let r2 := match r1 with
        | '/' :: t => t
        | _ => r1
      match r2 with
      | '>' :: t => some t
      | _ => none
    else none
  | _ => none

/-- Global replacement of /<BR\s*\/?>/gi by newlines (fuel = input length
bounds the recursion; each step consumes at least one character). -/
def replaceBRAux : Nat → List Char → List Char
  | 0, cs => cs
  | _ + 1, [] => []
  | fuel + 1, c :: t =>
    match brTail (c :: t) with
    | some rest => '\n' :: replaceBRAux fuel rest
    | none => c :: replaceBRAux fuel t

def digitsToNat (ds : List Char) : Nat := ds.foldl (fun n c => n * 10 + (c.toNat - 48)) 0

/-- Modelled from the spec: `decodeHtmlEntities` delegates to the browser
(a textarea's innerHTML/value round trip, external to the repo); modelled
for the standard named and numeric entities and as the identity on
entity-free text. `cs` is the text after a '&'. -/
def entityTail (cs : List Char) : Option (Char × List Char) :=
  if isPrefixOfL "amp;".toList cs then some ('&', cs.drop 4)
  else if isPrefixOfL "lt;".toList cs then some ('<', cs.drop 3)
  else if isPrefixOfL "gt;".toList cs then some ('>', cs.drop 3)
  else if isPrefixOfL "quot;".toList cs then some ('"', cs.drop 5)
  else if isPrefixOfL "nbsp;".toList cs then some (Char.ofNat 160, cs.drop 5)
  else if isPrefixOfL "#39;".toList cs then some ('\'', cs.drop 4)
  else
    match cs with
    | '#' :: rest =>
      let ds := rest.takeWhile Char.isDigit
      match rest.drop ds.length with
      | ';' :: t => if ds.isEmpty then none else some (Char.ofNat (digitsToNat ds), t)
      | _ => none
    | _ => none

def decodeEntitiesAux : Nat → List Char → List Char
  | 0, cs => cs
  | _ + 1, [] => []
  | fuel + 1, c :: t =>
    if c == '&' then
      match entityTail t with
      | some (ch, rest) => ch :: decodeEntitiesAux fuel rest
      | none => c :: decodeEntitiesAux fuel t
    else c :: decodeEntitiesAux fuel t

/-- `cleanHtmlOutput`: empty for falsy input, else newline-replace BR tags
and decode HTML entities. -/
def cleanHtmlOutput (html : String) : String :=
  if strIsEmpty html then ""
  else
    let cs := replaceBRAux html.toList.length html.toList
    String.mk (decodeEntitiesAux cs.length cs)

def findSubIdx (needle : List Char) : List Char → Option Nat
  | [] => if isPrefixOfL needle [] then some 0 else none
  | c :: cs =>
    if isPrefixOfL needle (c :: cs) then some 0
    else (findSubIdx needle cs).map (· + 1)

def matchFrom (st en cs : List Char) : Option (List Char) :=
  if isPrefixOfL st cs then
    let rest := cs.drop st.length
    match findSubIdx en rest with
    | some j => some (rest.take j)
    | none => none
  else none

/-- First match of the regex  start([\s\S]*?)end  built from the escaped
literal markers: leftmost position where the start marker is eventually
followed by the end marker, lazy capture of the text in between. -/
def searchFrom (st en : List Char) : List Char → Option (List Char)
  | [] => matchFrom st en []
  | c :: cs =>
    match matchFrom st en (c :: cs) with
    | some r => some r
    | none => searchFrom st en cs

def defaultStartMarker : String := "###RESULTS###"

def defaultEndMarker : String := "###END###"

/-- `executeAndParse` on an already-received raw HTML response: clean the
HTML, extract the marker-delimited region, parse its lines. Returns [] when
the markers are absent. -/
def executeAndParseModel (html startMarker endMarker : String) : List ScriptResult :=
  let cleaned := cleanHtmlOutput html
  match searchFrom startMarker.toList endMarker.toList cleaned.toList with
  | none => []
  | some content => parseScriptLines (String.mk content)

/-! ### Derived notions and concrete instances used by the theorems -/

/-- A descriptor's aliases, lowercased as the alias map keys are. -/
def lowAliases (c : Command) : List String := (c.aliases.getD []).map jsToLower

/-- Ordering by technical-name length (the sort comparator of
`findMatchingTables`). -/
def tblLenLe (a b : TableDef) : Prop := a.table.length ≤ b.table.length

/-- A descriptor whose `validate` returns the falsy string `""`. -/
def cValFalsy : Command := ⟨some "x", none, true, some (fun _ => JSVal.vstr "")⟩

def rValFalsy : Registry := (register regEmpty cValFalsy).1

/-- A descriptor whose `validate` returns the truthy string `"no"`. -/
def cValStr : Command := ⟨some "x", none, true, some (fun _ => JSVal.vstr "no")⟩

def rValStr : Registry := (register regEmpty cValStr).1

/-- A descriptor with an alias that a later registration's name shadows. -/
def cFoo : Command := ⟨some "foo", some ["bar"], true, none⟩

def cBar : Command := ⟨some "bar", none, true, none⟩

def rShadow : Registry := registerList regEmpty [cFoo, cBar]

def cList : Command := ⟨some "list", some ["ls", "l"], true, none⟩

def demoTables : List TableDef :=
  [⟨"Incident", "incident"⟩, ⟨"Incident Task", "incident_task"⟩]

def envNoToken : PageEnv := ⟨none, [], ""⟩

/-- Two concrete correlated response messages. -/
def msgA : BridgeMsg := ⟨some "snEzApiResponse", some "glass_1_1", 10⟩

def msgB : BridgeMsg := ⟨some "snEzImpersonateResponse", some "glass_1_2", 20⟩

/-! ### Helper lemmas -/

theorem strIsEmpty_iff (s : String) : strIsEmpty s = true ↔ s = "" := by
  obtain ⟨cs⟩ := s
  show cs.isEmpty = true ↔ _
  rw [List.isEmpty_iff]
  constructor
  · rintro rfl; rfl
  · intro h
    exact congrArg String.data h

/-! ### Pending Request Table lemmas (for C1 and C2) -/

theorem lookupP_eraseP (p : Pending) (k key : String) :
    lookupP (eraseP p key) k = if k = key then none else lookupP p k := by
  induction p with
  | nil =>
    simp only [eraseP, List.filter_nil, lookupP]
    split <;> rfl
  | cons e t ih =>
    obtain ⟨k', v'⟩ := e
    simp only [eraseP, List.filter_cons] at ih ⊢
    by_cases hk : k' = key
    · subst hk
      simp only [bne_self_eq_false, Bool.false_eq_true, if_false, ih]
      by_cases h2 : k = k'
      · simp [h2]
      · simp [h2, lookupP, beq_eq_false_iff_ne.mpr (fun h : k' = k => h2 h.symm)]
    · have hb : (k' != key) = true := bne_iff_ne.mpr hk
      simp only [hb, if_true, lookupP]
      by_cases h2 : k' = k
      · subst h2
        simp [hk]
      · simp only [beq_eq_false_iff_ne.mpr h2, Bool.false_eq_true, if_false, ih]

theorem lookupP_eraseP_self (p : Pending) (k : String) :
    lookupP (eraseP p k) k = none := by
  rw [lookupP_eraseP]
  simp

theorem handleMessage_none_or_erase (p : Pending) (m : BridgeMsg) :
    handleMessage p m = (p, none)
    ∨ ∃ mid h, m.messageId = some mid ∧ lookupP p mid = some h
        ∧ handleMessage p m = (eraseP p mid, some (mid, h, m)) := by
  rcases hmm : m.messageId with _ | mid
  · left
    simp [handleMessage, hmm]
  · by_cases he : strIsEmpty mid = true
    · left
      simp [handleMessage, hmm, he]
    · rcases hl : lookupP p mid with _ | h
      · left
        simp [handleMessage, hmm, he, hl]
      · rcases ht : m.type with _ | ty
        · left
          simp [handleMessage, hmm, he, hl, ht]
        · by_cases hr : strIncludes ty "Response" = true
          · right
            exact ⟨mid, h, rfl, hl, by simp [handleMessage, hmm, he, hl, ht, hr]⟩
          · left
            simp [handleMessage, hmm, he, hl, ht, hr]

theorem stepEv_none_or_settle (p : Pending) (e : Event) :
    stepEv p e = (p, none)
    ∨ ∃ mid h o, lookupP p mid = some h
        ∧ stepEv p e = (eraseP p mid, some (mid, h, o)) := by
  cases e with
  | arrive m =>
    rcases handleMessage_none_or_erase p m with h | ⟨mid, hh, _, hl, heq⟩
    · left
      simp [stepEv, h]
    · right
      exact ⟨mid, hh, .resolved m, hl, by simp [stepEv, heq]⟩
  | timeoutFire mid =>
    cases hl : lookupP p mid with
    | none =>
      left
      simp [stepEv, hl]
    | some h =>
      right
      exact ⟨mid, h, .rejectedTimeout, hl, by simp [stepEv, hl]⟩

theorem stepEv_pres_none (p : Pending) (e : Event) (k : String)
    (hk : lookupP p k = none) : lookupP (stepEv p e).1 k = none := by
  rcases stepEv_none_or_settle p e with h | ⟨mid, hh, o, _, heq⟩
  · rw [h]
    exact hk
  · rw [heq]
    rw [lookupP_eraseP]
    by_cases h2 : k = mid <;> simp [h2, hk]

theorem runEvents_settled_mem (p : Pending) (evs : List Event) :
    ∀ s ∈ (runEvents p evs).2, lookupP p s.1 ≠ none := by
  induction evs generalizing p with
  | nil =>
    intro s hs
    simp [runEvents] at hs
  | cons e es ih =>
    intro s hs
    simp only [runEvents] at hs
    rw [List.mem_append] at hs
    rcases hs with hs | hs
    · rcases stepEv_none_or_settle p e with h | ⟨mid, hh, o, hl, heq⟩
      · rw [h] at hs
        simp at hs
      · rw [heq] at hs
        simp at hs
        subst hs
        simp [hl]
    · have hm := ih (stepEv p e).1 s hs
      intro hk
      exact hm (stepEv_pres_none p e s.1 hk)

theorem runEvents_ids_nodup (p : Pending) (evs : List Event) :
    ((runEvents p evs).2.map (fun s => s.1)).Nodup := by
  induction evs generalizing p with
  | nil => simp [runEvents]
  | cons e es ih =>
    simp only [runEvents]
    rcases stepEv_none_or_settle p e with h | ⟨mid, hh, o, hl, heq⟩
    · rw [h]
      simpa using ih p
    · rw [heq]
      simp only [Option.toList_some, List.singleton_append, List.map_cons]
      refine List.nodup_cons.mpr ⟨?_, ih _⟩
      intro hmem
      rw [List.mem_map] at hmem
      obtain ⟨s, hs, hfst⟩ := hmem
      have hne := runEvents_settled_mem (eraseP p mid) es s hs
      rw [hfst] at hne
      exact hne (lookupP_eraseP_self p mid)

/-! ### C1: correlation-id matching, not arrival order -/

/-- C1: with two in-flight requests under distinct (non-empty) correlation
ids and two response-typed messages carrying those ids, delivering the
responses in the reverse of send order settles each caller with exactly the
message carrying its own id; delivering them in send order produces the
same caller-to-response pairing, so correctness depends only on
correlation-id matching, never on arrival order. -/
theorem bridge_no_crosstalk (h1 h2 : Nat) (id1 id2 ty1 ty2 : String)
    (m1 m2 : BridgeMsg)
    (hne : id1 ≠ id2)
    (he1 : strIsEmpty id1 = false) (he2 : strIsEmpty id2 = false)
    (hm1 : m1.messageId = some id1) (hm2 : m2.messageId = some id2)
    (ht1 : m1.type = some ty1) (ht2 : m2.type = some ty2)
    (hr1 : strIncludes ty1 "Response" = true)
    (hr2 : strIncludes ty2 "Response" = true) :
    runEvents [(id1, h1), (id2, h2)] [.arrive m2, .arrive m1]
      = ([], [(id2, h2, .resolved m2), (id1, h1, .resolved m1)])
    ∧ runEvents [(id1, h1), (id2, h2)] [.arrive m1, .arrive m2]
      = ([], [(id1, h1, .resolved m1), (id2, h2, .resolved m2)]) := by
  have hb12 : (id1 == id2) = false := beq_eq_false_iff_ne.mpr hne
  have hb21 : (id2 == id1) = false := beq_eq_false_iff_ne.mpr (Ne.symm hne)
  have hn12 : (id1 != id2) = true := bne_iff_ne.mpr hne
  have hn21 : (id2 != id1) = true := bne_iff_ne.mpr (Ne.symm hne)
  constructor <;>
    simp [runEvents, stepEv, handleMessage, hm1, hm2, ht1, ht2, hr1, hr2,
      he1, he2, lookupP, eraseP, List.filter_cons, hb12, hb21, hn12, hn21]

theorem bridge_no_crosstalk_witness :
    runEvents [("glass_1_1", 1), ("glass_1_2", 2)] [.arrive msgB, .arrive msgA]
      = ([], [("glass_1_2", 2, .resolved msgB), ("glass_1_1", 1, .resolved msgA)]) :=
  (bridge_no_crosstalk 1 2 "glass_1_1" "glass_1_2"
    "snEzApiResponse" "snEzImpersonateResponse" msgA msgB
    (by decide) rfl rfl rfl rfl rfl rfl (by decide) (by decide)).1

/-! ### C2: at-most-once settlement of pending entries -/

/-- C2: for an in-flight request, the Pending Request Table entry is removed
exactly once, on the first of response arrival or timeout firing: the
timeout transition removes the entry in the same step that rejects (so the
entry is gone before the rejection is observable); a response arriving after
settlement finds no entry and is dropped without error (no settlement, state
unchanged); a timeout firing after settlement is likewise a no-op; and over
every event sequence each correlation id settles at most once. -/
theorem pending_at_most_once (p : Pending) (mid : String) (h : Nat)
    (m : BridgeMsg)
    (hp : lookupP p mid = some h) (hm : m.messageId = some mid) :
    (stepEv p (.timeoutFire mid)
        = (eraseP p mid, some (mid, h, .rejectedTimeout))
      ∧ lookupP (eraseP p mid) mid = none)
    ∧ stepEv (eraseP p mid) (.arrive m) = (eraseP p mid, none)
    ∧ stepEv (eraseP p mid) (.timeoutFire mid) = (eraseP p mid, none)
    ∧ ∀ evs : List Event,
        ((runEvents p evs).2.map (fun s => s.1)).Nodup := by
  have hn : lookupP (eraseP p mid) mid = none := lookupP_eraseP_self p mid
  refine ⟨⟨by simp [stepEv, hp], hn⟩, ?_, by simp [stepEv, hn],
    fun evs => runEvents_ids_nodup p evs⟩
  simp only [stepEv, handleMessage, hm]
  by_cases he : strIsEmpty mid = true
  · simp [he]
  · simp [he, hn]

theorem pending_at_most_once_witness :
    stepEv [("glass_1_1", 1)] (.timeoutFire "glass_1_1")
      = ([], some ("glass_1_1", 1, .rejectedTimeout))
    ∧ stepEv [] (.arrive msgA) = ([], none) := by
  have h := pending_at_most_once [("glass_1_1", 1)] "glass_1_1" 1 msgA rfl rfl
  exact ⟨h.1.1, h.2.1⟩

/-! ### C3: runScriptAndParse on a mixed JSON / plain-text region -/

/-- C3: on a raw response containing the region
`###RESULTS###\n{"a":1}\nnotjson\n{"b":2}\n###END###` (no BR tags or HTML
entities), `executeAndParse` with the default markers returns the
three-element list [{a:1}, "notjson", {b:2}]: JSON lines are parsed, and the
non-JSON line is kept as a raw string record rather than dropped. -/
theorem runScriptAndParse_mixed_lines :
    executeAndParseModel
        "###RESULTS###\n\x7b\"a\":1\x7d\nnotjson\n\x7b\"b\":2\x7d\n###END###"
        defaultStartMarker defaultEndMarker
      = [ScriptResult.jsonRes (Json.jobj [("a", Json.jnum "1")]),
         ScriptResult.textRes "notjson",
         ScriptResult.jsonRes (Json.jobj [("b", Json.jnum "2")])] := rfl

/-! ### C4: register fails fast on invalid descriptors -/

/-- C4: registering a descriptor missing a name or missing an execute
function fails with the InvalidDescriptor error, and the registry pair
returned with the error is exactly the input registry: neither the name map
nor the alias map changed (the throw precedes every insertion). -/
theorem register_invalid_descriptor (r : Registry) (c : Command)
    (h : c.name = none ∨ c.hasExecute = false) :
    register r c = (r, some "Command must have a name and execute function") := by
  rcases h with h | h
  · simp [register, truthyOS, h]
  · simp [register, h]

theorem register_invalid_descriptor_witness :
    register regEmpty ⟨none, none, true, none⟩
      = (regEmpty, some "Command must have a name and execute function") :=
  register_invalid_descriptor regEmpty ⟨none, none, true, none⟩ (Or.inl rfl)

/-! ### C5: dispatch surfacing of non-true validate results -/

/-- C5 (counterexample): the claim "dispatch surfaces the exact non-true
validate return value verbatim" fails: `cValFalsy`'s validate returns the
(falsy) empty string, but dispatch surfaces the fallback message
`Invalid arguments for x`, not that exact value, because the code throws
`Error(validationResult || fallback)`. -/
theorem dispatch_validate_falsy_counterexample :
    cValFalsy.validate = some (fun _ => JSVal.vstr "")
    ∧ dispatch rValFalsy "x arg" = .threw "Invalid arguments for x"
    ∧ ("Invalid arguments for x" : String) ≠ "" :=
  ⟨rfl, rfl, by decide⟩

/-- C5 (amended): for a registered descriptor whose validate returns any
value other than `true`, dispatch never invokes `execute`; the surfaced
error is the exact return value when the value is truthy (for a string,
the string itself), and the fallback `Invalid arguments for <name>` when
the return value is falsy. -/
theorem dispatch_validate_nontrue (r : Registry) (line : String) (c : Command)
    (f : List String → JSVal)
    (hc : rget r ((splitWs line).headD "") = some c)
    (hv : c.validate = some f)
    (hne : f ((splitWs line).tail) ≠ JSVal.vtrue) :
    dispatch r line
      = .threw (if truthyV (f ((splitWs line).tail))
          then jsValToString (f ((splitWs line).tail))
          else "Invalid arguments for " ++ jsDisplay c.name)
    ∧ ∀ (c' : Command) (args : List String), dispatch r line ≠ .invoked c' args := by
  have hd : dispatch r line
      = .threw (if truthyV (f ((splitWs line).tail))
          then jsValToString (f ((splitWs line).tail))
          else "Invalid arguments for " ++ jsDisplay c.name) := by
    simp only [dispatch, hc, hv]
    rw [if_neg hne]
  exact ⟨hd, fun c' args hcon => by
    rw [hd] at hcon
    exact DispatchResult.noConfusion hcon⟩

theorem dispatch_validate_nontrue_witness :
    dispatch rValStr "x arg" = .threw "no" := by
  have h := (dispatch_validate_nontrue rValStr "x arg" cValStr
    (fun _ => JSVal.vstr "no") rfl rfl (by decide)).1
  simpa [truthyV, strIsEmpty, jsValToString] using h

/-! ### C7: resolveExact resolution order and fallback -/

/-- C7 (counterexample): the claim "otherwise returns the input itself
verbatim as the technical id" fails: with no matching table, the code
returns `input.toLowerCase()`, so `resolveTableName [] "ABC"` is `"abc"`,
not the verbatim input `"ABC"`. -/
theorem resolveTableName_counterexample :
    resolveTableName [] "ABC" = "abc" ∧ "abc" ≠ "ABC" :=
  ⟨rfl, by decide⟩

/-- C7 (amended): for every input, `resolveTableName` returns the technical
name of an exact (case-insensitive) technical-name match if one exists,
otherwise of an exact display-name match if one exists, and otherwise
returns the lowercased input as the technical id; it is total, so it never
fails and always produces some identifier. -/
theorem resolveTableName_spec (tables : List TableDef) (input : String) :
    ((∃ d ∈ tables, jsToLower d.table = jsToLower input) →
      ∃ d ∈ tables, jsToLower d.table = jsToLower input
        ∧ resolveTableName tables input = d.table)
    ∧ ((∀ d ∈ tables, jsToLower d.table ≠ jsToLower input) →
      (∃ d ∈ tables, jsToLower d.name = jsToLower input) →
      ∃ d ∈ tables, jsToLower d.name = jsToLower input
        ∧ resolveTableName tables input = d.table)
    ∧ ((∀ d ∈ tables, jsToLower d.table ≠ jsToLower input) →
      (∀ d ∈ tables, jsToLower d.name ≠ jsToLower input) →
      resolveTableName tables input = jsToLower input) := by
  refine ⟨?_, ?_, ?_⟩
  · rintro ⟨d, hd, he⟩
    cases hf : tables.find? (fun d => jsToLower d.table == jsToLower input) with
    | none =>
      rw [List.find?_eq_none] at hf
      exact absurd (by simpa using he) (by simpa using hf d hd)
    | some d' =>
      exact ⟨d', List.mem_of_find?_eq_some hf,
        by simpa using List.find?_some hf, by simp [resolveTableName, hf]⟩
  · intro hno
    rintro ⟨d, hd, he⟩
    have hf1 : tables.find? (fun d => jsToLower d.table == jsToLower input) = none :=
      List.find?_eq_none.mpr (fun x hx => by simpa using hno x hx)
    cases hf : tables.find? (fun d => jsToLower d.name == jsToLower input) with
    | none =>
      rw [List.find?_eq_none] at hf
      exact absurd (by simpa using he) (by simpa using hf d hd)
    | some d' =>
      exact ⟨d', List.mem_of_find?_eq_some hf,
        by simpa using List.find?_some hf, by simp [resolveTableName, hf1, hf]⟩
  · intro hno1 hno2
    have hf1 : tables.find? (fun d => jsToLower d.table == jsToLower input) = none :=
      List.find?_eq_none.mpr (fun x hx => by simpa using hno1 x hx)
    have hf2 : tables.find? (fun d => jsToLower d.name == jsToLower input) = none :=
      List.find?_eq_none.mpr (fun x hx => by simpa using hno2 x hx)
    simp [resolveTableName, hf1, hf2]

theorem resolveTableName_spec_witness :
    resolveTableName [] "nonexistent_xyz" = jsToLower "nonexistent_xyz" :=
  (resolveTableName_spec [] "nonexistent_xyz").2.2 (by simp) (by simp)

/-! ### C9: script execution with no discoverable session token -/

/-- C9: when no session token is discoverable — the page global is falsy,
no inline script content matches the g_ck pattern, and no session cookie is
present — the bridge answers a script-execution request with the
no-authentication-token error response immediately and issues no network
request (the result is the error response, not a `networkPost`). -/
theorem bridge_no_token_fails_fast (env : PageEnv) (mid script scope : String)
    (h1 : truthyOS env.gck = false)
    (h2 : ∀ s ∈ env.scripts, matchGckAssign s = none)
    (h3 : cookieLookup env.cookie = none) :
    handleBackgroundScriptRequest env mid script scope
      = .errorResponse mid "No authentication token available"
    ∧ getSessionToken env = none := by
  have hfs : env.scripts.findSome? matchGckAssign = none :=
    List.findSome?_eq_none_iff.mpr h2
  have hget : getSessionToken env = none := by
    simp [getSessionToken, h1, hfs, h3]
  have hg : env.gck.getD "" = "" := by
    cases hg2 : env.gck with
    | none => rfl
    | some s =>
      rw [hg2] at h1
      simp only [truthyOS, Bool.not_eq_false'] at h1
      simpa using (strIsEmpty_iff s).mp h1
  have hemp : strIsEmpty "" = true := rfl
  refine ⟨?_, hget⟩
  simp [handleBackgroundScriptRequest, hget, hg, jsOrS, hemp]

theorem bridge_no_token_fails_fast_witness :
    handleBackgroundScriptRequest envNoToken "m1" "gs.print(1)" ""
      = .errorResponse "m1" "No authentication token available" :=
  (bridge_no_token_fails_fast envNoToken "m1" "gs.print(1)" ""
    rfl (by simp [envNoToken]) rfl).1

/-! ### C10: dispatch on whitespace-only input -/

/-- C10: for an input line consisting only of whitespace (including the
empty line), dispatch throws the UnknownCommand error with the empty
command token and invokes no descriptor's validate or execute — it is
neither a crash nor a silent no-op. The two hypotheses on the registry hold
for every registry built by `register`, which never stores an empty name
key (names must be truthy) and is never given an empty alias by this
program. -/
theorem dispatch_blank_unknown (r : Registry) (line : String)
    (hws : ∀ ch ∈ line.toList, jsWs ch = true)
    (h1 : mapGet r.commands "" = none) (h2 : mapGet r.aliases "" = none) :
    dispatch r line
      = .threw "Unknown command: . Type 'help' for available commands."
    ∧ ∀ (c : Command) (args : List String),
        dispatch r line ≠ .invoked c args := by
  have hdw : line.toList.dropWhile jsWs = [] := List.dropWhile_eq_nil_iff.mpr hws
  have htr : jsTrim line = "" := by
    unfold jsTrim trimCharsL
    rw [hdw]
    rfl
  have hsw : splitWs line = [""] := by
    simp only [splitWs, htr]
    rfl
  have hlow : jsToLower "" = "" := rfl
  have hr : rget r "" = none := by
    simp [rget, hlow, h1, h2]
  have hd : dispatch r line
      = .threw "Unknown command: . Type 'help' for available commands." := by
    simp [dispatch, hsw, hr]
  exact ⟨hd, fun c args hcon => by
    rw [hd] at hcon
    exact DispatchResult.noConfusion hcon⟩

theorem dispatch_blank_unknown_witness :
    dispatch regEmpty "   "
      = .threw "Unknown command: . Type 'help' for available commands." :=
  (dispatch_blank_unknown regEmpty "   " (by decide) rfl rfl).1

/-! ### C8: table lookup ranking -/

theorem mem_insertByLen (d x : TableDef) (l : List TableDef) :
    x ∈ insertByLen d l ↔ x = d ∨ x ∈ l := by
  induction l with
  | nil => simp [insertByLen]
  | cons e t ih =>
    simp only [insertByLen]
    split
    · simp [List.mem_cons]
    · simp only [List.mem_cons, ih]
      tauto

theorem sorted_insertByLen (d : TableDef) (l : List TableDef)
    (h : l.Pairwise tblLenLe) : (insertByLen d l).Pairwise tblLenLe := by
  induction l with
  | nil => simp [insertByLen, tblLenLe]
  | cons e t ih =>
    simp only [insertByLen]
    split
    · rename_i hlt
      refine List.Pairwise.cons ?_ h
      intro x hx
      rcases List.mem_cons.mp hx with rfl | hx
      · exact Nat.le_of_lt hlt
      · exact Nat.le_trans (Nat.le_of_lt hlt) ((List.pairwise_cons.mp h).1 x hx)
    · rename_i hnlt
      have h1 := List.pairwise_cons.mp h
      refine List.Pairwise.cons ?_ (ih h1.2)
      intro x hx
      rcases (mem_insertByLen d x t).mp hx with rfl | hx
      · exact Nat.le_of_not_lt hnlt
      · exact h1.1 x hx

theorem sorted_sortByLen (l : List TableDef) : (sortByLen l).Pairwise tblLenLe := by
  induction l with
  | nil => simp [sortByLen]
  | cons d t ih => exact sorted_insertByLen d _ ih

theorem mem_sortByLen (x : TableDef) (l : List TableDef) :
    x ∈ sortByLen l ↔ x ∈ l := by
  induction l with
  | nil => simp [sortByLen]
  | cons d t ih => simp [sortByLen, mem_insertByLen, ih]

/-- C8: table lookup is case-insensitive, produces at most 10 results, puts
every starts-with match before every mere substring match, orders each rank
by technical-name length (shorter first, stably), and on the two demo items
ranks `incident` before `incident_task` for the query "inc". -/
theorem findMatchingTables_ranking :
    (∀ (tables : List TableDef) (input : String),
        (findMatchingTables tables input).length ≤ 10)
    ∧ (∀ (tables : List TableDef) (input : String),
        ∃ (s : List TableDef) (i : List TableDef),
        findMatchingTables tables input = (s ++ i).take 10
        ∧ (∀ d ∈ s, startsMatch d (jsToLower input) = true)
        ∧ (∀ d ∈ i, startsMatch d (jsToLower input) = false
            ∧ inclMatch d (jsToLower input) = true)
        ∧ s.Pairwise tblLenLe ∧ i.Pairwise tblLenLe)
    ∧ (∀ (tables : List TableDef) (s1 s2 : String),
        strIsEmpty s1 = false → strIsEmpty s2 = false →
        jsToLower s1 = jsToLower s2 →
        findMatchingTables tables s1 = findMatchingTables tables s2)
    ∧ findMatchingTables demoTables "inc"
        = [⟨"Incident", "incident"⟩, ⟨"Incident Task", "incident_task"⟩] := by
  refine ⟨?_, ?_, ?_, rfl⟩
  · intro tables input
    simp only [findMatchingTables]
    split
    · simp
    · simp only [List.length_take]
      exact min_le_left _ _
  · intro tables input
    by_cases hemp : strIsEmpty input = true
    · refine ⟨[], [], ?_, by intro d hd; exact absurd hd (List.not_mem_nil d),
        by intro d hd; exact absurd hd (List.not_mem_nil d),
        List.Pairwise.nil, List.Pairwise.nil⟩
      simp [findMatchingTables, hemp]
    · refine ⟨sortByLen (tables.filter (fun d => startsMatch d (jsToLower input))),
        sortByLen (tables.filter (fun d => !startsMatch d (jsToLower input)
          && inclMatch d (jsToLower input))), ?_, ?_, ?_,
        sorted_sortByLen _, sorted_sortByLen _⟩
      · simp [findMatchingTables, hemp]
      · intro d hd
        exact (List.mem_filter.mp ((mem_sortByLen d _).mp hd)).2
      · intro d hd
        have hmem := (List.mem_filter.mp ((mem_sortByLen d _).mp hd)).2
        rw [Bool.and_eq_true, Bool.not_eq_true'] at hmem
        exact hmem
  · intro tables s1 s2 h1 h2 hlow
    simp only [findMatchingTables, h1, h2, hlow, Bool.false_eq_true, if_false]

theorem findMatchingTables_ranking_witness :
    findMatchingTables demoTables "Inc" = findMatchingTables demoTables "inc" :=
  findMatchingTables_ranking.2.2.1 demoTables "Inc" "inc" rfl rfl (by decide)

/-! ### C6: registry map lemmas and alias transparency -/

theorem mapGet_mapSet_self {α : Type} (m : List (String × α)) (k : String) (v : α) :
    mapGet (mapSet m k v) k = some v := by
  induction m with
  | nil => simp [mapSet, mapGet]
  | cons e t ih =>
    obtain ⟨k', v'⟩ := e
    by_cases h : k' = k
    · simp [mapSet, mapGet, h]
    · simp [mapSet, mapGet, beq_eq_false_iff_ne.mpr h, ih]

theorem mapGet_mapSet_ne {α : Type} (m : List (String × α)) (k k' : String) (v : α)
    (h : k ≠ k') : mapGet (mapSet m k' v) k = mapGet m k := by
  induction m with
  | nil =>
    simp [mapSet, mapGet, beq_eq_false_iff_ne.mpr (fun hh : k' = k => h hh.symm)]
  | cons e t ih =>
    obtain ⟨k2, v2⟩ := e
    by_cases h2 : k2 = k'
    · subst h2
      simp [mapSet, mapGet, beq_eq_false_iff_ne.mpr (fun hh : k2 = k => h hh.symm)]
    · simp only [mapSet, beq_eq_false_iff_ne.mpr h2, Bool.false_eq_true, if_false]
      by_cases h3 : k2 = k
      · subst h3
        simp [mapGet]
      · simp [mapGet, beq_eq_false_iff_ne.mpr h3, ih]

theorem mapGet_aliasFold (as : List String) (nm : String)
    (m : List (String × String)) (k : String) :
    mapGet (as.foldl (fun acc a => mapSet acc (jsToLower a) nm) m) k
      = if k ∈ as.map jsToLower then some nm else mapGet m k := by
  induction as generalizing m with
  | nil => simp
  | cons a t ih =>
    simp only [List.foldl_cons, List.map_cons, List.mem_cons]
    rw [ih]
    by_cases ht : k ∈ t.map jsToLower
    · simp [ht]
    · by_cases ha : k = jsToLower a
      · simp [ht, ha, mapGet_mapSet_self]
      · simp [ht, ha, mapGet_mapSet_ne _ _ _ _ ha]

theorem register_fst_invalid (r : Registry) (c : Command)
    (h : (!truthyOS c.name || !c.hasExecute) = true) : (register r c).1 = r := by
  simp [register, h]

theorem register_fst_valid (r : Registry) (c : Command)
    (h : (!truthyOS c.name || !c.hasExecute) = false) :
    (register r c).1.commands = mapSet r.commands (lowName c) c
    ∧ (register r c).1.aliases = (c.aliases.getD []).foldl
        (fun m a => mapSet m (jsToLower a) (lowName c)) r.aliases := by
  constructor <;> simp [register, h]

theorem registerList_commands_pres :
    ∀ (L : List Command) (r : Registry) (k : String),
    (∀ c ∈ L, lowName c ≠ k) →
    mapGet (registerList r L).commands k = mapGet r.commands k := by
  intro L
  induction L with
  | nil => intro r k _; rfl
  | cons c t ih =>
    intro r k h
    have ht : ∀ c' ∈ t, lowName c' ≠ k :=
      fun c' hm => h c' (List.mem_cons_of_mem _ hm)
    show mapGet (registerList (register r c).1 t).commands k = _
    rw [ih _ _ ht]
    by_cases hb : (!truthyOS c.name || !c.hasExecute) = true
    · rw [register_fst_invalid r c hb]
    · rw [(register_fst_valid r c (by rwa [Bool.not_eq_true] at hb)).1]
      exact mapGet_mapSet_ne _ _ _ _
        (fun hh => h c (List.mem_cons_self c t) hh.symm)

theorem registerList_aliases_pres :
    ∀ (L : List Command) (r : Registry) (k : String),
    (∀ c ∈ L, k ∉ lowAliases c) →
    mapGet (registerList r L).aliases k = mapGet r.aliases k := by
  intro L
  induction L with
  | nil => intro r k _; rfl
  | cons c t ih =>
    intro r k h
    have ht : ∀ c' ∈ t, k ∉ lowAliases c' :=
      fun c' hm => h c' (List.mem_cons_of_mem _ hm)
    show mapGet (registerList (register r c).1 t).aliases k = _
    rw [ih _ _ ht]
    by_cases hb : (!truthyOS c.name || !c.hasExecute) = true
    · rw [register_fst_invalid r c hb]
    · rw [(register_fst_valid r c (by rwa [Bool.not_eq_true] at hb)).2]
      rw [mapGet_aliasFold]
      exact if_neg (h c (List.mem_cons_self c t))

theorem registerList_mem_commands :
    ∀ (L : List Command) (r : Registry) (c : Command),
    c ∈ L →
    (∀ d ∈ L, (!truthyOS d.name || !d.hasExecute) = false) →
    (L.map lowName).Nodup →
    mapGet (registerList r L).commands (lowName c) = some c := by
  intro L
  induction L with
  | nil => intro r c hc _ _; cases hc
  | cons d t ih =>
    intro r c hc hval hnames
    have hn1 : lowName d ∉ t.map lowName := by
      have h1 : ((d :: t).map lowName).Nodup := hnames
      simp only [List.map_cons, List.nodup_cons] at h1
      exact h1.1
    have hn2 : (t.map lowName).Nodup := by
      have h1 : ((d :: t).map lowName).Nodup := hnames
      simp only [List.map_cons, List.nodup_cons] at h1
      exact h1.2
    rcases List.mem_cons.mp hc with rfl | hct
    · have hnd : ∀ c' ∈ t, lowName c' ≠ lowName c := by
        intro c' hc' he
        exact hn1 (he ▸ List.mem_map_of_mem lowName hc')
      show mapGet (registerList (register r c).1 t).commands (lowName c) = some c
      rw [registerList_commands_pres t _ _ hnd]
      rw [(register_fst_valid r c (hval c (List.mem_cons_self c t))).1]
      exact mapGet_mapSet_self _ _ _
    · exact ih _ c hct (fun d' hd' => hval d' (List.mem_cons_of_mem _ hd')) hn2

theorem registerList_mem_aliases :
    ∀ (L : List Command) (r : Registry) (c : Command) (a : String),
    c ∈ L → a ∈ lowAliases c →
    (∀ d ∈ L, (!truthyOS d.name || !d.hasExecute) = false) →
    L.Pairwise (fun c1 c2 => ∀ x ∈ lowAliases c1, x ∉ lowAliases c2) →
    mapGet (registerList r L).aliases a = some (lowName c) := by
  intro L
  induction L with
  | nil => intro r c a hc _ _ _; cases hc
  | cons d t ih =>
    intro r c a hc ha hval hpw
    rcases List.mem_cons.mp hc with rfl | hct
    · have hnt : ∀ c' ∈ t, a ∉ lowAliases c' :=
        fun c' hc' => (List.pairwise_cons.mp hpw).1 c' hc' a ha
      show mapGet (registerList (register r c).1 t).aliases a = _
      rw [registerList_aliases_pres t _ _ hnt]
      rw [(register_fst_valid r c (hval c (List.mem_cons_self c t))).2]
      rw [mapGet_aliasFold]
      exact if_pos ha
    · exact ih _ c a hct ha (fun d' hd' => hval d' (List.mem_cons_of_mem _ hd'))
        (List.pairwise_cons.mp hpw).2

/-- C6 (counterexample): the claim fails on the code because `get` checks
the name map before the alias map: `cFoo` is registered with alias "bar",
but a later registration named "bar" shadows that alias, so resolving "bar"
returns the later descriptor, not `cFoo`. -/
theorem registry_alias_shadowing_counterexample :
    rget rShadow "foo" = some cFoo
    ∧ "bar" ∈ cFoo.aliases.getD []
    ∧ rget rShadow "bar" = some cBar
    ∧ cBar ≠ cFoo := by
  refine ⟨rfl, by simp [cFoo], rfl, ?_⟩
  intro h
  have hn := congrArg Command.name h
  simp [cFoo, cBar] at hn

/-- C6 (amended): in a registry built by registering a list of valid
descriptors whose lowercased names are pairwise distinct, whose lowercased
aliases never collide across descriptors, and whose aliases never equal any
descriptor's name, resolving a descriptor's name and each of its aliases
returns that same descriptor; resolution is case-insensitive, and a hit in
the name map always wins over the alias map. -/
theorem registry_alias_transparency (L : List Command)
    (hval : ∀ d ∈ L, (!truthyOS d.name || !d.hasExecute) = false)
    (hnames : (L.map lowName).Nodup)
    (hcross : L.Pairwise (fun c1 c2 => ∀ x ∈ lowAliases c1, x ∉ lowAliases c2))
    (hdisj : ∀ c ∈ L, ∀ a ∈ lowAliases c, ∀ c' ∈ L, a ≠ lowName c') :
    (∀ c ∈ L, rget (registerList regEmpty L) (c.name.getD "") = some c
      ∧ ∀ al ∈ c.aliases.getD [], rget (registerList regEmpty L) al = some c)
    ∧ (∀ s t : String, jsToLower s = jsToLower t →
        rget (registerList regEmpty L) s = rget (registerList regEmpty L) t)
    ∧ (∀ (r : Registry) (s : String) (c : Command),
        mapGet r.commands (jsToLower s) = some c → rget r s = some c) := by
  refine ⟨?_, ?_, ?_⟩
  · intro c hc
    have hcm : mapGet (registerList regEmpty L).commands (lowName c) = some c :=
      registerList_mem_commands L regEmpty c hc hval hnames
    constructor
    · show rget _ (c.name.getD "") = some c
      simp only [rget]
      rw [show jsToLower (c.name.getD "") = lowName c from rfl]
      rw [hcm]
    · intro al hal
      have halow : jsToLower al ∈ lowAliases c := List.mem_map_of_mem jsToLower hal
      have hnone : mapGet (registerList regEmpty L).commands (jsToLower al) = none := by
        rw [registerList_commands_pres L regEmpty _ ?_]
        · rfl
        · intro c' hc' he
          exact hdisj c hc (jsToLower al) halow c' hc' he.symm
      have hal2 : mapGet (registerList regEmpty L).aliases (jsToLower al)
          = some (lowName c) :=
        registerList_mem_aliases L regEmpty c (jsToLower al) hc halow hval hcross
      simp only [rget]
      rw [hnone, hal2]
      exact hcm
  · intro s t hlow
    simp only [rget]
    rw [hlow]
  · intro r s c hm
    simp only [rget]
    rw [hm]

theorem registry_alias_transparency_witness :
    rget (registerList regEmpty [cList]) "ls" = some cList := by
  have e1 : lowAliases cList = ["ls", "l"] := rfl
  have h := registry_alias_transparency [cList]
    (by
      intro d hd
      rw [List.mem_singleton] at hd
      subst hd
      rfl)
    (by simp)
    (List.pairwise_singleton _ _)
    (by
      intro c hc a ha c' hc'
      rw [List.mem_singleton] at hc hc'
      subst hc
      subst hc'
      rw [e1] at ha
      rw [List.mem_cons, List.mem_singleton] at ha
      rcases ha with rfl | rfl <;> decide)
  have h2 := (h.1 cList (List.mem_singleton.mpr rfl)).2 "ls" (by
    show "ls" ∈ (some ["ls", "l"]).getD []
    simp)
  exact h2

end GlassCli
